import Mathlib

/-!
Verification development for the multilog logging library.

The Go sources are shallowly embedded: pure functions become Lean functions,
the handler state touched by a claim (the stored pattern) becomes explicit
state passing, machine integers become `Int`, and Go `error` results become
`Option String` (the error message) or `Except String`.  `slog.Level` is an
integer type; the embedding uses `Int` with the stdlib's constants
(DEBUG = -4, INFO = 0, WARN = 4, ERROR = 8).
-/

namespace Multilog

/-! ## Severity model (levels.go / logger.go)

`LevelPerf = slog.Level(-1)` in the source; the remaining constants are the
Go stdlib `log/slog` level values. -/

/-- Go `slog.LevelDebug` (= -4). -/
def slogLevelDebug : Int := -4

/-- Go `slog.LevelInfo` (= 0). -/
def slogLevelInfo : Int := 0

/-- Go `slog.LevelWarn` (= 4). -/
def slogLevelWarn : Int := 4

/-- Go `slog.LevelError` (= 8). -/
def slogLevelError : Int := 8

/-- Source constant `LevelPerf = slog.Level(-1)`. -/
def LevelPerf : Int := -1

/-- Source constant `DefaultSLogLevel = slog.LevelInfo`. -/
def DefaultSLogLevel : Int := slogLevelInfo

/-- Source map `LevelMap` from level strings to `slog.Level`. -/
def LevelMap (s : String) : Option Int :=
  match s with
  | "debug" => some slogLevelDebug
  | "info" => some slogLevelInfo
  | "warn" => some slogLevelWarn
  | "error" => some slogLevelError
  | "perf" => some LevelPerf
  | _ => none

/-- Source `GetSlogLevel`: look the string up in `LevelMap`, defaulting to
`DefaultSLogLevel` for unknown strings. -/
def GetSlogLevel (level : String) : Int :=
  (LevelMap level).getD DefaultSLogLevel

/-- Source map `LevelNamesMap` from `slog.Level` to strings, via
`GetLevelName` (unknown levels give "unknown"). -/
def GetLevelName (level : Int) : String :=
  if level = slogLevelDebug then "debug"
  else if level = slogLevelInfo then "info"
  else if level = slogLevelWarn then "warn"
  else if level = slogLevelError then "error"
  else if level = LevelPerf then "perf"
  else "unknown"

/-- The five supported level strings (source `LogLevels`). -/
def LogLevels : List String := ["debug", "info", "warn", "error", "perf"]

/-! ## Handler options (custom_handler.go) -/

/-- Source struct `CustomHandlerOptions`. -/
structure CustomHandlerOptions where
  Level : String := ""
  SubType : String := ""
  Enabled : Bool := false
  Pattern : String := ""
  PatternPlaceholders : List String := []
  AddSource : Bool := false
  UseSingleLetterLevel : Bool := false
  ValuePrefixChar : String := ""
  ValueSuffixChar : String := ""
  File : String := ""
  MaxSize : Int := 0
  MaxBackups : Int := 0
  MaxAge : Int := 0
deriving DecidableEq

/-- Source `CustomHandler.Enabled`: the inner `slog` text handler's gate
(`level >= GetSlogLevel(opts.Level)`) conjoined with `opts.Enabled`.  The
inner handler is constructed in `NewCustomHandler` with
`Level: GetSlogLevel(customOpts.Level)`. -/
def customHandlerEnabled (opts : CustomHandlerOptions) (level : Int) : Bool :=
  decide (GetSlogLevel opts.Level ≤ level) && opts.Enabled

/-- Modelled from the spec's words for claim C1 only: the rank of a level
string under the order claimed by the spec, `PERF < DEBUG < INFO < WARN <
ERROR`.  This definition follows the spec, not the source, and exists to be
compared against the source's numeric order. -/
def specSeverityRank (s : String) : Nat :=
  match s with
  | "perf" => 0
  | "debug" => 1
  | "info" => 2
  | "warn" => 3
  | "error" => 4
  | _ => 2

/-! ## Default pattern constants (config.go) -/

/-- Source constant `DefaultFormat`. -/
def DefaultFormat : String := "[time] [level] [msg]"

/-- Source constant `DefaultPerfFormat`. -/
def DefaultPerfFormat : String := "[time] [level] [perf] [msg]"

/-- Source constant `DefaultDebugFormat`. -/
def DefaultDebugFormat : String := "[time] [level] [perf] [msg] [source]"

/-- Source constant `DefaultErrorFormat`. -/
def DefaultErrorFormat : String := "[time] [level] [msg] [source]"

/-- Source `getPatternForLevel`: a non-empty pattern is returned unchanged;
an empty pattern selects the level-specific default. -/
def getPatternForLevel (level : Int) (pattern : String) : String :=
  if pattern ≠ "" then pattern
  else if level = LevelPerf then DefaultPerfFormat
  else if level = slogLevelDebug then DefaultDebugFormat
  else if level = slogLevelError then DefaultErrorFormat
  else DefaultFormat

/-- State-passing embedding of the pattern field across successive calls of
`CustomHandler.Handle`: each call executes
`ch.Opts.Pattern = getPatternForLevel(record.Level, ch.Opts.Pattern)` and
renders with the updated value.  Given the initial stored pattern and the
levels of the records handled, in order, this returns the pattern used for
each render. -/
def usedPatterns (pattern : String) : List Int → List String
  | [] => []
  | l :: ls =>
    let u := getPatternForLevel l pattern
    u :: usedPatterns u ls

lemma getPatternForLevel_of_ne (l : Int) (p : String) (h : p ≠ "") :
    getPatternForLevel l p = p := by
  simp [getPatternForLevel, h]

lemma getPatternForLevel_empty_ne (l : Int) : getPatternForLevel l "" ≠ "" := by
  unfold getPatternForLevel
  split
  · simp_all
  · split
    · decide
    · split
      · decide
      · split
        · decide
        · decide

lemma usedPatterns_of_ne (ls : List Int) (p : String) (h : p ≠ "") :
    usedPatterns p ls = List.replicate ls.length p := by
  induction ls with
  | nil => rfl
  | cons l ls ih =>
    simp [usedPatterns, getPatternForLevel_of_ne l p h, List.replicate, ih]

/-! ## Claim C1 -/

/-- C1 counterexample: a sink with options `{enabled, level "perf"}` does
not admit a DEBUG record (`customHandlerEnabled` is `false` at
`slog.LevelDebug = -4`), although the order claimed by the spec has
PERF ≤ DEBUG (rank 0 ≤ rank 1) and would therefore demand `true`. -/
theorem C1_counterexample :
    customHandlerEnabled { Level := "perf", Enabled := true } slogLevelDebug = false ∧
    specSeverityRank "perf" ≤ specSeverityRank "debug" := by
  constructor
  · decide
  · decide

/-- C1 amended: for every sink whose options carry one of the five level
strings, `enabled(l)` holds iff `options.Enabled` and `l ≥ L` under the
numeric `slog` order, in which the severities are ordered
`DEBUG < PERF < INFO < WARN < ERROR` (PERF sits strictly between DEBUG and
INFO); in particular a sink with level "perf" does not admit DEBUG. -/
theorem C1_enabled_gate :
    (∀ (opts : CustomHandlerOptions) (l : Int), opts.Level ∈ LogLevels →
      (customHandlerEnabled opts l = true ↔
        opts.Enabled = true ∧ GetSlogLevel opts.Level ≤ l)) ∧
    slogLevelDebug < LevelPerf ∧ LevelPerf < slogLevelInfo ∧
    slogLevelInfo < slogLevelWarn ∧ slogLevelWarn < slogLevelError ∧
    customHandlerEnabled { Level := "perf", Enabled := true } slogLevelDebug = false := by
  refine ⟨?_, by decide, by decide, by decide, by decide, by decide⟩
  intro opts l _
  simp [customHandlerEnabled, Bool.and_eq_true, decide_eq_true_eq, and_comm]

/-- C1 witness: the amended gate applied at a concrete input (a perf-level
sink admits an INFO record). -/
theorem C1_enabled_gate_witness :
    customHandlerEnabled { Level := "perf", Enabled := true } slogLevelInfo = true := by
  exact (C1_enabled_gate.1 { Level := "perf", Enabled := true } slogLevelInfo
    (by decide)).mpr ⟨rfl, by decide⟩

/-! ## Claim C3 -/

/-- C3 counterexample: a text sink configured with the empty pattern that
handles a DEBUG record and then an ERROR record renders the second record
with the DEBUG default pattern (the value stored by the first call), not
with the ERROR default required by the claim. -/
theorem C3_counterexample :
    usedPatterns "" [slogLevelDebug, slogLevelError]
      = [DefaultDebugFormat, DefaultDebugFormat] ∧
    DefaultDebugFormat ≠ DefaultErrorFormat := by
  constructor
  · rfl
  · decide

/-- C3 amended: with an empty configured pattern, only the FIRST record's
level selects the pattern (DEBUG, ERROR and PERF map to their level
defaults, everything else to the base default); `Handle` stores that
choice back into the options, so every later record of the same sink is
rendered with the first record's pattern, whatever its own level.  A
non-empty stored pattern is never changed. -/
theorem C3_pattern_selection :
    (∀ l : Int, getPatternForLevel l "" =
      (if l = LevelPerf then DefaultPerfFormat
       else if l = slogLevelDebug then DefaultDebugFormat
       else if l = slogLevelError then DefaultErrorFormat
       else DefaultFormat)) ∧
    (∀ (l : Int) (p : String), p ≠ "" → getPatternForLevel l p = p) ∧
    (∀ (l : Int) (ls : List Int),
      usedPatterns "" (l :: ls)
        = List.replicate (ls.length + 1) (getPatternForLevel l "")) := by
  refine ⟨?_, ?_, ?_⟩
  · intro l
    simp [getPatternForLevel]
  · intro l p h
    exact getPatternForLevel_of_ne l p h
  · intro l ls
    have h := getPatternForLevel_empty_ne l
    simp [usedPatterns, usedPatterns_of_ne ls _ h, List.replicate]

/-- C3 witness: the amended statement applied at concrete inputs; a sink
whose pattern is empty renders a DEBUG record and a later ERROR record both
with the DEBUG default. -/
theorem C3_pattern_selection_witness :
    getPatternForLevel slogLevelError DefaultDebugFormat = DefaultDebugFormat ∧
    usedPatterns "" [slogLevelDebug, slogLevelError]
      = List.replicate 2 (getPatternForLevel slogLevelDebug "") := by
  refine ⟨C3_pattern_selection.2.1 slogLevelError DefaultDebugFormat (by decide), ?_⟩
  exact C3_pattern_selection.2.2 slogLevelDebug [slogLevelError]

/-! ## Aggregator (aggregator.go)

A child sink is modelled by its observable behaviour: its level gate, the
error (if any) its `Handle` produces for a record of a given level, and the
attribute/group state that `WithAttrs` / `WithGroup` derivation extends.
`CustomHandler.WithAttrs` builds a new handler sharing options, buffer and
writer but holding the derived inner serializer, so derivation preserves
the gate and the handling behaviour and only extends the attribute state. -/

/-- Behavioural model of one child sink. -/
structure Sink where
  enabledAt : Int → Bool
  handleErr : Int → Option String
  attrs : List (String × String) := []
  groups : List String := []

/-- Source `Aggregator.Handle`, instrumented: iterate the children from
index `i`; a child is invoked iff its gate admits the record's level; the
first non-nil error wins and the iteration never stops early.  Returns the
final error together with the indices of the invoked children, in order. -/
def aggregatorHandleFrom (lvl : Int) : List Sink → Nat → Option String × List Nat
  | [], _ => (none, [])
  | h :: t, i =>
    let rest := aggregatorHandleFrom lvl t (i + 1)
    if h.enabledAt lvl then
      (match h.handleErr lvl with
       | some e => some e
       | none => rest.1, i :: rest.2)
    else rest

/-- Source `Aggregator.Handle` on a record of level `lvl` (children are
listed in construction order). -/
def aggregatorHandle (a : List Sink) (lvl : Int) : Option String × List Nat :=
  aggregatorHandleFrom lvl a 0

/-- First non-`none` element of a list of optional errors. -/
def firstSome : List (Option String) → Option String
  | [] => none
  | o :: t =>
    match o with
    | some e => some e
    | none => firstSome t

/-- Source `Aggregator.WithAttrs` on the child model: pointwise derivation
into a freshly built list. -/
def aggregatorWithAttrs (a : List Sink) (as : List (String × String)) : List Sink :=
  a.map fun h => { h with attrs := h.attrs ++ as }

/-- Source `Aggregator.WithGroup` on the child model: pointwise derivation
into a freshly built list. -/
def aggregatorWithGroup (a : List Sink) (g : String) : List Sink :=
  a.map fun h => { h with groups := h.groups ++ [g] }

/-- Pointwise child derivation used by `aggregatorWithAttrs`. -/
def sinkWithAttrs (s : Sink) (as : List (String × String)) : Sink :=
  { s with attrs := s.attrs ++ as }

/-- Pointwise child derivation used by `aggregatorWithGroup`. -/
def sinkWithGroup (s : Sink) (g : String) : Sink :=
  { s with groups := s.groups ++ [g] }

lemma aggregatorHandleFrom_spec (lvl : Int) (a : List Sink) : ∀ i : Nat,
    aggregatorHandleFrom lvl a i
      = (firstSome ((a.filter fun s => s.enabledAt lvl).map fun s => s.handleErr lvl),
         ((List.enumFrom i a).filter fun p => p.2.enabledAt lvl).map fun p => p.1) := by
  induction a with
  | nil => intro i; rfl
  | cons h t ih =>
    intro i
    by_cases hen : h.enabledAt lvl
    · cases herr : h.handleErr lvl <;>
        simp [aggregatorHandleFrom, hen, herr, ih (i + 1), List.enumFrom,
          List.filter_cons, firstSome]
    · simp [aggregatorHandleFrom, hen, ih (i + 1), List.enumFrom, List.filter_cons]

/-! ## Claim C2 -/

/-- C2: `Aggregator.Handle` invokes exactly the children whose gate admits
the record's level, each exactly once and in construction order (the trace
equals the enabled positions of the child list, in order), and returns the
first non-nil child error in construction order (`none` when every invoked
child succeeds); children after a failing child are still invoked. -/
theorem C2_fanout (a : List Sink) (lvl : Int) :
    (aggregatorHandle a lvl).2
      = ((a.enum.filter fun p => p.2.enabledAt lvl).map fun p => p.1) ∧
    (aggregatorHandle a lvl).1
      = firstSome ((a.filter fun s => s.enabledAt lvl).map fun s => s.handleErr lvl) := by
  rw [aggregatorHandle, aggregatorHandleFrom_spec lvl a 0]
  exact ⟨rfl, rfl⟩

/-! ## Claim C8 -/

/-- C8: `Aggregator.WithAttrs` and `Aggregator.WithGroup` build a new
aggregator of the same length whose i-th child is the pointwise derivation
of the original i-th child; the derivation preserves the child's gate and
handling behaviour and only extends its attribute (resp. group) state, so
the original children observe no new attributes or groups (the embedding is
pure: the input list itself is never mutated, matching the fresh slice the
source allocates). -/
theorem C8_derivation :
    (∀ (a : List Sink) (as : List (String × String)),
      (aggregatorWithAttrs a as).length = a.length ∧
      ∀ i : Nat, (aggregatorWithAttrs a as)[i]? = (a[i]?).map fun h => sinkWithAttrs h as) ∧
    (∀ (a : List Sink) (g : String),
      (aggregatorWithGroup a g).length = a.length ∧
      ∀ i : Nat, (aggregatorWithGroup a g)[i]? = (a[i]?).map fun h => sinkWithGroup h g) ∧
    (∀ (s : Sink) (as : List (String × String)),
      (sinkWithAttrs s as).enabledAt = s.enabledAt ∧
      (sinkWithAttrs s as).handleErr = s.handleErr ∧
      (sinkWithAttrs s as).attrs = s.attrs ++ as ∧
      (sinkWithAttrs s as).groups = s.groups) ∧
    (∀ (s : Sink) (g : String),
      (sinkWithGroup s g).enabledAt = s.enabledAt ∧
      (sinkWithGroup s g).handleErr = s.handleErr ∧
      (sinkWithGroup s g).attrs = s.attrs ∧
      (sinkWithGroup s g).groups = s.groups ++ [g]) := by
  refine ⟨fun a as => ⟨by simp [aggregatorWithAttrs], fun i => ?_⟩,
    fun a g => ⟨by simp [aggregatorWithGroup], fun i => ?_⟩,
    fun s as => ⟨rfl, rfl, rfl, rfl⟩, fun s g => ⟨rfl, rfl, rfl, rfl⟩⟩
  · simp [aggregatorWithAttrs, sinkWithAttrs]
  · simp [aggregatorWithGroup, sinkWithGroup]

/-! ## Configuration (config.go) -/

/-- Source constant `FileHandlerType`. -/
def FileHandlerType : String := "file"

/-- Source constant `ConsoleHandlerType`. -/
def ConsoleHandlerType : String := "console"

/-- Source constant `TextHandlerSubType`. -/
def TextHandlerSubType : String := "text"

/-- Source constant `JSONHandlerSubType`. -/
def JSONHandlerSubType : String := "json"

/-- Source constant `DefaultLogFileSize` (megabytes). -/
def DefaultLogFileSize : Int := 5

/-- Source constant `DefaultLogFileBackups`. -/
def DefaultLogFileBackups : Int := 1

/-- Source constant `DefaultLogFileAge` (days). -/
def DefaultLogFileAge : Int := 1

/-- Source list `DefaultPatternPlaceholders`. -/
def DefaultPatternPlaceholders : List String :=
  ["[datetime]", "[level]", "[msg]", "[source]"]

/-- Source struct `HandlerConfig` (the Go field `Type` is embedded as `Typ`
because `Type` is reserved in Lean). -/
structure HandlerConfig where
  Typ : String := ""
  SubType : String := ""
  Level : String := ""
  Enabled : Bool := false
  UseSingleLetterLevel : Bool := false
  Pattern : String := ""
  PatternPlaceholders : String := ""
  ValuePrefixChar : String := ""
  ValueSuffixChar : String := ""
  File : String := ""
  MaxSize : Int := 0
  MaxBackups : Int := 0
  MaxAge : Int := 0
deriving DecidableEq

/-- Source struct `Config` / `LogConfig`, flattened to the handler list
(`multilog.handlers`). -/
structure Config where
  handlers : List HandlerConfig
deriving DecidableEq

/-- Source helper `Contains` (aggregator.go): linear scan of a string
slice. -/
def Contains : List String → String → Bool
  | [], _ => false
  | s :: t, item => if s == item then true else Contains t item

/-- Source helper `defaultIfEmpty`. -/
def defaultIfEmpty (value defaultValue : String) : String :=
  if value = "" then defaultValue else value

/-- Source helper `defaultIfZero`. -/
def defaultIfZero (value defaultValue : Int) : Int :=
  if value = 0 then defaultValue else value

/-- Source helper `TrimSpaces`: trim whitespace around every placeholder
(Go `strings.TrimSpace`; Lean's `String.trim` removes the same ASCII
whitespace). -/
def TrimSpaces (placeholders : List String) : List String :=
  placeholders.map String.trim

/-- Source `Config.GetCustomHandlerOptionsForHandler`: materialize options
from a handler entry, applying defaults for zero/empty fields, splitting
the placeholder list on commas, and setting `AddSource` iff the entry is a
file handler; an unknown type yields the error
`unknown handlerConfig type: <t>`. -/
def GetCustomHandlerOptionsForHandler (hc : HandlerConfig) :
    Except String CustomHandlerOptions :=
  let options : CustomHandlerOptions :=
    { Level := hc.Level
      SubType := defaultIfEmpty hc.SubType TextHandlerSubType
      Enabled := hc.Enabled
      Pattern := defaultIfEmpty hc.Pattern DefaultFormat
      PatternPlaceholders :=
        TrimSpaces ((defaultIfEmpty hc.PatternPlaceholders
          (String.intercalate "," DefaultPatternPlaceholders)).splitOn ",")
      AddSource := hc.Typ == FileHandlerType
      UseSingleLetterLevel := hc.UseSingleLetterLevel
      ValuePrefixChar := defaultIfEmpty hc.ValuePrefixChar ""
      ValueSuffixChar := defaultIfEmpty hc.ValueSuffixChar ""
      File := hc.File
      MaxSize := defaultIfZero hc.MaxSize DefaultLogFileSize
      MaxBackups := defaultIfZero hc.MaxBackups DefaultLogFileBackups
      MaxAge := defaultIfZero hc.MaxAge DefaultLogFileAge }
  if hc.Typ ≠ ConsoleHandlerType ∧ hc.Typ ≠ FileHandlerType then
    .error ("unknown handlerConfig type: " ++ hc.Typ)
  else
    .ok options

/-- Source `validateHandler`: per-entry checks, in order (type, level, file
presence for file handlers, subtype).  `none` means the entry passes. -/
def validateHandler (h : HandlerConfig) : Option String :=
  if h.Typ ≠ ConsoleHandlerType ∧ h.Typ ≠ FileHandlerType then
    some ("invalid handler type: " ++ h.Typ)
  else if ¬ Contains LogLevels h.Level then
    some ("invalid log level: " ++ h.Level)
  else if h.Typ = FileHandlerType ∧ h.File = "" then
    some "file handler requires a file"
  else if h.SubType ≠ "" ∧ (h.Typ = FileHandlerType ∧
      h.SubType ≠ TextHandlerSubType ∧ h.SubType ≠ JSONHandlerSubType) then
    some ("invalid file handler subtype: " ++ h.SubType)
  else
    none

/-- Source `validateHandlers` loop body, with the loop index `i` and the
running console count made explicit: a second console entry aborts with
`handler <i+1>: only one console handler is allowed`; otherwise each entry
runs through `validateHandler`, whose failure aborts with
`handler <i+1>: <msg>`. -/
def validateHandlersFrom : List HandlerConfig → Nat → Nat → Option String
  | [], _, _ => none
  | h :: t, i, count =>
    let newCount := if h.Typ = ConsoleHandlerType then count + 1 else count
    if h.Typ = ConsoleHandlerType ∧ newCount > 1 then
      some ("handler " ++ toString (i + 1) ++ ": only one console handler is allowed")
    else
      match validateHandler h with
      | some msg => some ("handler " ++ toString (i + 1) ++ ": " ++ msg)
      | none => validateHandlersFrom t (i + 1) newCount

/-- Source `validateHandlers`. -/
def validateHandlers (hs : List HandlerConfig) : Option String :=
  validateHandlersFrom hs 0 0

/-- Source `validateConfig`: wrap a handler validation failure. -/
def validateConfig (c : Config) : Option String :=
  (validateHandlers c.handlers).map fun msg => "handler validation failed: " ++ msg

/-- Source `NewConfigFromData`, modelled on the already-decoded document
(the YAML unmarshalling step is an external collaborator): validation
failure returns an error and no configuration — hence no sink list — is
produced. -/
def NewConfigFromData (c : Config) : Except String Config :=
  match validateConfig c with
  | some msg => .error ("invalid config data: " ++ msg)
  | none => .ok c

/-- The number of console entries in a handler list. -/
def countConsole (hs : List HandlerConfig) : Nat :=
  (hs.filter fun h => h.Typ == ConsoleHandlerType).length

/-- Whether the first list is a leading segment of the second. -/
def leadsWith : List Char → List Char → Bool
  | [], _ => true
  | _ :: _, [] => false
  | a :: as, b :: bs => a == b && leadsWith as bs

/-- Whether `sub` occurs contiguously inside the second list. -/
def hasInfixList (sub : List Char) : List Char → Bool
  | [] => sub.isEmpty
  | c :: rest => leadsWith sub (c :: rest) || hasInfixList sub rest

/-- Go `strings.Contains`, used to state that an error message mentions a
phrase. -/
def containsSubstring (s sub : String) : Bool :=
  hasInfixList sub.data s.data

lemma leadsWith_append (sub suf : List Char) : leadsWith sub (sub ++ suf) = true := by
  induction sub with
  | nil => rfl
  | cons a as ih => simp [leadsWith, ih]

lemma hasInfixList_of_leads (sub l : List Char) (h : leadsWith sub l = true) :
    hasInfixList sub l = true := by
  cases l with
  | nil =>
    cases sub with
    | nil => rfl
    | cons a as => simp [leadsWith] at h
  | cons c rest => simp [hasInfixList, h]

lemma hasInfixList_append (pre sub suf : List Char) :
    hasInfixList sub (pre ++ (sub ++ suf)) = true := by
  induction pre with
  | nil => exact hasInfixList_of_leads sub (sub ++ suf) (leadsWith_append sub suf)
  | cons c pre ih => simp [hasInfixList, ih]

lemma validateHandlersFrom_ok (xs : List HandlerConfig) :
    ∀ (i count : Nat), (∀ h ∈ xs, validateHandler h = none) →
    countConsole xs + count ≤ 1 →
    validateHandlersFrom xs i count = none := by
  induction xs with
  | nil => intro i count _ _; rfl
  | cons x xs ih =>
    intro i count hval hcount
    by_cases hx : x.Typ = ConsoleHandlerType
    · have hxc : countConsole (x :: xs) = countConsole xs + 1 := by
        simp [countConsole, List.filter_cons, hx]
      have h0 : count = 0 := by omega
      subst h0
      have hrec := ih (i + 1) 1 (fun h hm => hval h (List.mem_cons_of_mem x hm))
        (by omega)
      simp [validateHandlersFrom, hx, hval x (List.mem_cons_self x xs), hrec]
    · have hxc : countConsole (x :: xs) = countConsole xs := by
        simp [countConsole, List.filter_cons, hx]
      have hrec := ih (i + 1) count (fun h hm => hval h (List.mem_cons_of_mem x hm))
        (by omega)
      simp [validateHandlersFrom, hx, hval x (List.mem_cons_self x xs), hrec]

lemma validateHandlersFrom_second_console (c : HandlerConfig) (ys : List HandlerConfig)
    (hc : c.Typ = ConsoleHandlerType) (xs : List HandlerConfig) :
    ∀ (i count : Nat), (∀ h ∈ xs, validateHandler h = none) →
    countConsole xs + count = 1 →
    validateHandlersFrom (xs ++ c :: ys) i count
      = some ("handler " ++ toString (i + xs.length + 1)
          ++ ": only one console handler is allowed") := by
  induction xs with
  | nil =>
    intro i count _ hcount
    have hcount1 : count = 1 := by
      simpa [countConsole] using hcount
    subst hcount1
    simp [validateHandlersFrom, hc]
  | cons x xs ih =>
    intro i count hval hcount
    by_cases hx : x.Typ = ConsoleHandlerType
    · have hxc : countConsole (x :: xs) = countConsole xs + 1 := by
        simp [countConsole, List.filter_cons, hx]
      have h0 : count = 0 := by omega
      subst h0
      have hrec := ih (i + 1) 1
        (fun h hm => hval h (List.mem_cons_of_mem x hm)) (by omega)
      have harg : i + 1 + xs.length + 1 = i + (x :: xs).length + 1 := by
        simp [List.length_cons]
        omega
      rw [harg] at hrec
      simp [validateHandlersFrom, hx, hval x (List.mem_cons_self x xs), hrec]
    · have hxc : countConsole (x :: xs) = countConsole xs := by
        simp [countConsole, List.filter_cons, hx]
      have hrec := ih (i + 1) count
        (fun h hm => hval h (List.mem_cons_of_mem x hm)) (by omega)
      have harg : i + 1 + xs.length + 1 = i + (x :: xs).length + 1 := by
        simp [List.length_cons]
        omega
      rw [harg] at hrec
      simp [validateHandlersFrom, hx, hval x (List.mem_cons_self x xs), hrec]

/-! ## Claim C7 -/

/-- C7 counterexample: a configuration with two console entries whose first
entry carries an invalid level fails with `handler 1: invalid log level:
bogus` — a message that does not mention "only one console handler" — so
the claim's unconditional error message is wrong. -/
theorem C7_counterexample :
    countConsole
      [{ Typ := "console", Level := "bogus", Enabled := true },
       { Typ := "console", Level := "info", Enabled := true }] = 2 ∧
    validateHandlers
      [{ Typ := "console", Level := "bogus", Enabled := true },
       { Typ := "console", Level := "info", Enabled := true }]
      = some "handler 1: invalid log level: bogus" ∧
    containsSubstring "handler 1: invalid log level: bogus"
      "only one console handler" = false := by
  refine ⟨by decide, by decide, by decide⟩

/-- C7 amended: if every entry before the second console entry passes its
per-entry validation, a handler list containing a second console entry
fails with `handler <n>: only one console handler is allowed` (raised at
the second console entry, whose 1-based position is `n`), the message
mentions "only one console handler", and `NewConfigFromData` returns an
error, so no sink list is produced; a list with at most one console entry
whose entries all pass per-entry validation validates successfully. -/
theorem C7_console_validation :
    (∀ (xs ys : List HandlerConfig) (c : HandlerConfig),
      c.Typ = ConsoleHandlerType → countConsole xs = 1 →
      (∀ h ∈ xs, validateHandler h = none) →
      validateHandlers (xs ++ c :: ys)
          = some ("handler " ++ toString (xs.length + 1)
              ++ ": only one console handler is allowed") ∧
        containsSubstring ("handler " ++ toString (xs.length + 1)
              ++ ": only one console handler is allowed")
            "only one console handler" = true ∧
        NewConfigFromData ⟨xs ++ c :: ys⟩
          = .error ("invalid config data: " ++ ("handler validation failed: "
              ++ ("handler " ++ toString (xs.length + 1)
                ++ ": only one console handler is allowed")))) ∧
    (∀ hs : List HandlerConfig, countConsole hs ≤ 1 →
      (∀ h ∈ hs, validateHandler h = none) →
      validateHandlers hs = none ∧ NewConfigFromData ⟨hs⟩ = .ok ⟨hs⟩) := by
  constructor
  · intro xs ys c hc hone hval
    have hmain : validateHandlers (xs ++ c :: ys)
        = some ("handler " ++ toString (xs.length + 1)
            ++ ": only one console handler is allowed") := by
      have := validateHandlersFrom_second_console c ys hc xs 0 0 hval (by omega)
      simpa [validateHandlers] using this
    refine ⟨hmain, ?_, ?_⟩
    · unfold containsSubstring
      have htail : (": only one console handler is allowed" : String).data
          = (": " : String).data ++ (("only one console handler" : String).data
            ++ (" is allowed" : String).data) := by decide
      have hsplit : ("handler " ++ toString (xs.length + 1)
            ++ ": only one console handler is allowed").data
          = (("handler " : String).data ++ ((toString (xs.length + 1)).data
              ++ (": " : String).data))
            ++ (("only one console handler" : String).data
              ++ (" is allowed" : String).data) := by
        simp [String.data_append, htail]
      rw [hsplit]
      exact hasInfixList_append _ _ _
    · simp [NewConfigFromData, validateConfig, hmain]
  · intro hs hcount hval
    have hmain : validateHandlers hs = none :=
      validateHandlersFrom_ok hs 0 0 hval (by omega)
    exact ⟨hmain, by simp [NewConfigFromData, validateConfig, hmain]⟩

/-- C7 witness: the amended statement applied to a two-console list whose
first entry is valid. -/
theorem C7_console_validation_witness :
    validateHandlers
      [{ Typ := "console", Level := "info", Enabled := true },
       { Typ := "console", Level := "info", Enabled := true }]
      = some ("handler " ++ toString 2 ++ ": only one console handler is allowed") := by
  exact (C7_console_validation.1
    [{ Typ := "console", Level := "info", Enabled := true }] []
    { Typ := "console", Level := "info", Enabled := true }
    rfl (by decide) (by decide)).1

/-! ## Claim C9 -/

/-- C9: materializing options for any console or file handler entry
replaces zero-valued rotation knobs by the defaults (MaxSize 5,
MaxBackups 1, MaxAge 1) and sets `AddSource` iff the entry's type is
"file"; in particular the minimal file entry
`{type=file, subtype=text, level=info, file=x.log}` yields
MaxSize=5, MaxBackups=1, MaxAge=1 and AddSource=true. -/
theorem C9_option_defaults :
    (∀ hc : HandlerConfig, hc.Typ = ConsoleHandlerType ∨ hc.Typ = FileHandlerType →
      ∃ opts : CustomHandlerOptions,
        GetCustomHandlerOptionsForHandler hc = .ok opts ∧
        opts.MaxSize = (if hc.MaxSize = 0 then DefaultLogFileSize else hc.MaxSize) ∧
        opts.MaxBackups = (if hc.MaxBackups = 0 then DefaultLogFileBackups else hc.MaxBackups) ∧
        opts.MaxAge = (if hc.MaxAge = 0 then DefaultLogFileAge else hc.MaxAge) ∧
        opts.AddSource = (hc.Typ == FileHandlerType)) ∧
    (∃ opts : CustomHandlerOptions,
      GetCustomHandlerOptionsForHandler
          { Typ := "file", SubType := "text", Level := "info", File := "x.log" }
        = .ok opts ∧
      opts.MaxSize = 5 ∧ opts.MaxBackups = 1 ∧ opts.MaxAge = 1 ∧
      opts.AddSource = true) := by
  constructor
  · intro hc h
    have hcond : ¬ (hc.Typ ≠ ConsoleHandlerType ∧ hc.Typ ≠ FileHandlerType) := by
      rcases h with h | h <;> simp [h]
    unfold GetCustomHandlerOptionsForHandler
    rw [if_neg hcond]
    exact ⟨_, rfl, rfl, rfl, rfl, rfl⟩
  · exact ⟨_, rfl, by decide, by decide, by decide, rfl⟩

/-- C9 witness: the general statement applied to a concrete console entry
(AddSource is false there, and zero knobs still pick up the defaults). -/
theorem C9_option_defaults_witness :
    ∃ opts : CustomHandlerOptions,
      GetCustomHandlerOptionsForHandler { Typ := "console", Level := "info" }
        = .ok opts ∧
      opts.MaxSize
        = (if (({ Typ := "console", Level := "info" } : HandlerConfig)).MaxSize = 0
            then DefaultLogFileSize
            else (({ Typ := "console", Level := "info" } : HandlerConfig)).MaxSize) ∧
      opts.MaxBackups
        = (if (({ Typ := "console", Level := "info" } : HandlerConfig)).MaxBackups = 0
            then DefaultLogFileBackups
            else (({ Typ := "console", Level := "info" } : HandlerConfig)).MaxBackups) ∧
      opts.MaxAge
        = (if (({ Typ := "console", Level := "info" } : HandlerConfig)).MaxAge = 0
            then DefaultLogFileAge
            else (({ Typ := "console", Level := "info" } : HandlerConfig)).MaxAge) ∧
      opts.AddSource
        = ((({ Typ := "console", Level := "info" } : HandlerConfig)).Typ
            == FileHandlerType) := by
  exact C9_option_defaults.1 { Typ := "console", Level := "info" } (Or.inl rfl)

/-! ## Pattern formatter (custom_handler.go) -/

/-- Source constant `TimePlaceholder`. -/
def TimePlaceholder : String := "[time]"

/-- Source constant `LevelPlaceholder`. -/
def LevelPlaceholder : String := "[level]"

/-- Source constant `MsgPlaceholder`. -/
def MsgPlaceholder : String := "[msg]"

/-- Source constant `PerfPlaceholder`. -/
def PerfPlaceholder : String := "[perf]"

/-- Source constant `SourcePlaceholder`. -/
def SourcePlaceholder : String := "[source]"

/-- Source constant `DefaultValuePrefixChar` (the empty string). -/
def DefaultValuePrefixChar : String := ""

/-- Source constant `DefaultValueSuffixChar` (the empty string). -/
def DefaultValueSuffixChar : String := ""

/-- Source constant `DefaultSuffixStartChar`. -/
def DefaultSuffixStartChar : String := "["

/-- Source constant `DefaultSuffixEndChar`. -/
def DefaultSuffixEndChar : String := "]"

/-- Source constant `DefaultPerfStartChar`. -/
def DefaultPerfStartChar : String := "["

/-- Source constant `DefaultPerfEndChar`. -/
def DefaultPerfEndChar : String := "]"

/-- Whether a character is an ASCII lowercase letter (the regexp class in
`GetPlaceholders`). -/
def isLowerLetter (c : Char) : Bool :=
  'a' ≤ c && c ≤ 'z'

/-- Longest leading run of lowercase letters, with the rest of the list. -/
def takeLowerRun : List Char → List Char × List Char
  | [] => ([], [])
  | c :: cs =>
    if isLowerLetter c then
      let p := takeLowerRun cs
      (c :: p.1, p.2)
    else ([], c :: cs)

/-- Leftmost non-overlapping scan for bracketed lowercase words, the
behaviour of the regexp FindAllString in the source `GetPlaceholders`; the
fuel argument only bounds the recursion and never runs out when it starts
at the input length plus one. -/
def scanPlaceholdersAux : Nat → List Char → List String
  | 0, _ => []
  | _ + 1, [] => []
  | fuel + 1, c :: cs =>
    if c == '[' then
      match takeLowerRun cs with
      | ([], _) => scanPlaceholdersAux fuel cs
      | (run, rest) =>
        match rest with
        | ']' :: rest2 =>
          String.mk (('[' :: run) ++ [']']) :: scanPlaceholdersAux fuel rest2
        | _ => scanPlaceholdersAux fuel cs
    else scanPlaceholdersAux fuel cs

/-- Source `GetPlaceholders`: all matches of a bracketed run of one or more
lowercase letters, leftmost first, non-overlapping. -/
def GetPlaceholders (format : String) : List String :=
  scanPlaceholdersAux (format.length + 1) format.data

/-- Source `AddPrefixSuffix`: wraps the value in the PACKAGE-LEVEL default
prefix/suffix constants (both empty) — the per-sink options
`ValuePrefixChar` / `ValueSuffixChar` are never consulted. -/
def AddPrefixSuffix (value : String) : String :=
  DefaultValuePrefixChar ++ value ++ DefaultValueSuffixChar

/-- Go `strings.TrimSuffix(s, newline)`: drop one trailing newline. -/
def trimTrailingNewline (s : String) : String :=
  if s.endsWith "\n" then s.dropRight 1 else s

/-- Replacement loop of Go `strings.ReplaceAll` on character lists:
leftmost non-overlapping matches of `pat` are replaced by `repl`.  The fuel
only bounds the recursion and never runs out when it starts at the input
length plus one. -/
def replaceAllAux : Nat → List Char → List Char → List Char → List Char
  | 0, s, _, _ => s
  | _ + 1, [], _, _ => []
  | fuel + 1, c :: cs, pat, repl =>
    if leadsWith pat (c :: cs) then
      repl ++ replaceAllAux fuel (List.drop pat.length (c :: cs)) pat repl
    else c :: replaceAllAux fuel cs pat repl

/-- Go `strings.ReplaceAll` for a non-empty pattern (the source only ever
replaces placeholder tokens, which are never empty; an empty pattern is
returned unchanged here). -/
def replaceAll (s pat repl : String) : String :=
  if pat = "" then s
  else String.mk (replaceAllAux (s.length + 1) s.data pat.data repl.data)

/-- The substitution loop of the source `buildOutput`: every placeholder
with a non-empty resolved value is replaced (at all of its occurrences,
`strings.ReplaceAll`) by the wrapped value; empty values leave the
placeholder in place.  The Go code ranges over a map whose keys are the
distinct placeholders; the embedding fixes the placeholder-list order. -/
def substituteValues (pattern : String) (values : List (String × String)) : String :=
  values.foldl
    (fun res pv => if pv.2 = "" then res else replaceAll res pv.1 (AddPrefixSuffix pv.2))
    pattern

/-- The residue block appended by the source `buildOutput` when the working
buffer still holds serialized attributes: a space and the bracketed buffer
content stripped of its trailing newline, or nothing when the stripped
content is empty. -/
def residueBlock (sbContent : String) : String :=
  if (trimTrailingNewline sbContent).length > 0 then
    " " ++ DefaultSuffixStartChar ++ trimTrailingNewline sbContent ++ DefaultSuffixEndChar
  else ""

/-- Source `buildOutput`.  `GetPerformanceMetrics` reads live runtime
counters, so the metrics snapshot it would return is passed in as
`perfMetrics`. -/
def buildOutput (pattern : String) (values : List (String × String))
    (sbContent : String) (level : Int) (perfMetrics : String) : String :=
  let result := substituteValues pattern values
  let withPerf :=
    if level = LevelPerf ∧ Contains (GetPlaceholders pattern) PerfPlaceholder = false then
      result ++ " " ++ DefaultPerfStartChar ++ perfMetrics ++ DefaultPerfEndChar
    else result
  let suffix := trimTrailingNewline sbContent
  if suffix.length > 0 then
    withPerf ++ " " ++ DefaultSuffixStartChar ++ suffix ++ DefaultSuffixEndChar
  else withPerf

/-- Counting loop for `countOccurrences`. -/
def countOccurAux : Nat → List Char → List Char → Nat
  | 0, _, _ => 0
  | _ + 1, [], _ => 0
  | fuel + 1, c :: cs, pat =>
    if leadsWith pat (c :: cs) then
      1 + countOccurAux fuel (List.drop pat.length (c :: cs)) pat
    else countOccurAux fuel cs pat

/-- The number of leftmost non-overlapping occurrences of the non-empty
string `sub` in `s` (the notion used to state how often the metrics
snapshot appears in a rendered line). -/
def countOccurrences (s sub : String) : Nat :=
  if sub = "" then 0 else countOccurAux (s.length + 1) s.data sub.data

/-! ## Claim C4 -/

/-- C4: evaluation of the source rendering at the claim's concrete input.
`AddPrefixSuffix` concatenates the package-level default prefix/suffix
constants, which are both empty — the per-sink configured
`valuePrefixChar`/`valueSuffixChar` ("<" and ">" in the scenario) are never
read — so the record {10:51:36, INFO, "Info message"} under pattern
"[time] [level] [msg]" renders without the wrapping the claim requires. -/
theorem C4_configured_wrap_ignored :
    AddPrefixSuffix "INFO" = "INFO" ∧
    buildOutput "[time] [level] [msg]"
        [("[time]", "10:51:36"), ("[level]", "INFO"), ("[msg]", "Info message")]
        "" slogLevelInfo ""
      = "10:51:36 INFO Info message" ∧
    "10:51:36 INFO Info message" ≠ "<10:51:36> <INFO> <Info message>" := by
  refine ⟨rfl, by decide, by decide⟩

/-! ## Claim C5 -/

/-- C5 counterexample: for a PERF record and the pattern "[perf] [perf]"
(which contains `[perf]`), `strings.ReplaceAll` substitutes the metrics
snapshot at BOTH occurrences, so the snapshot appears twice in the rendered
line, contradicting "at most once". -/
theorem C5_counterexample :
    Contains (GetPlaceholders "[perf] [perf]") PerfPlaceholder = true ∧
    buildOutput "[perf] [perf]" [("[perf]", "goroutines:1")] "" LevelPerf "goroutines:1"
      = "goroutines:1 goroutines:1" ∧
    countOccurrences "goroutines:1 goroutines:1" "goroutines:1" = 2 := by
  refine ⟨by decide, by decide, by decide⟩

/-- C5 amended: for every PERF-severity render, if the effective pattern
does not contain the `[perf]` placeholder then exactly one metrics block
`" [" ++ metrics ++ "]"` is appended directly after the substituted
pattern (before any residue block); if the pattern does contain `[perf]`,
no block is appended and the metrics are substituted at every occurrence of
`[perf]`, so a pattern with n occurrences renders the snapshot n times
(twice for "[perf] [perf]"), not at most once. -/
theorem C5_perf_append (pattern : String) (values : List (String × String))
    (sbContent metrics : String) :
    (Contains (GetPlaceholders pattern) PerfPlaceholder = false →
      buildOutput pattern values sbContent LevelPerf metrics
        = (substituteValues pattern values
            ++ " " ++ DefaultPerfStartChar ++ metrics ++ DefaultPerfEndChar)
          ++ residueBlock sbContent) ∧
    (Contains (GetPlaceholders pattern) PerfPlaceholder = true →
      buildOutput pattern values sbContent LevelPerf metrics
        = substituteValues pattern values ++ residueBlock sbContent) := by
  constructor
  · intro h
    by_cases hs : (trimTrailingNewline sbContent).length > 0 <;>
      simp [buildOutput, residueBlock, h, hs, String.append_assoc]
  · intro h
    by_cases hs : (trimTrailingNewline sbContent).length > 0 <;>
      simp [buildOutput, residueBlock, h, hs, String.append_assoc]

/-- C5 witness: the amended statement applied at a concrete PERF render
whose pattern lacks `[perf]`. -/
theorem C5_perf_append_witness :
    buildOutput "[level] [msg]" [("[level]", "PERF"), ("[msg]", "hi")] "" LevelPerf
        "goroutines:2"
      = (substituteValues "[level] [msg]" [("[level]", "PERF"), ("[msg]", "hi")]
          ++ " " ++ DefaultPerfStartChar ++ "goroutines:2" ++ DefaultPerfEndChar)
        ++ residueBlock "" := by
  exact (C5_perf_append "[level] [msg]" [("[level]", "PERF"), ("[msg]", "hi")] ""
    "goroutines:2").1 (by decide)

/-! ## Attribute transformer and working buffer (custom_handler.go, slog)

`NewCustomHandler` with a nil `replaceAttr` installs
`GenerateDefaultCustomReplaceAttr(*customOpts, slog.TimeKey, slog.MessageKey)`
as the `ReplaceAttr` of the inner `slog.NewTextHandler`.  The text handler
serializes the built-in attributes (time when the record's time is
non-zero, level, source when `AddSource`, message) followed by the
user-supplied attributes into the working buffer, passing every attribute
through `ReplaceAttr` and dropping those that come back as the zero
`slog.Attr`.  The buffer is modelled by the list of emitted field keys. -/

/-- Go `slog.TimeKey`. -/
def slogTimeKey : String := "time"

/-- Go `slog.LevelKey`. -/
def slogLevelKey : String := "level"

/-- Go `slog.MessageKey`. -/
def slogMessageKey : String := "msg"

/-- Go `slog.SourceKey`. -/
def slogSourceKey : String := "source"

/-- Payload of a `slog.Attr` value, as far as the transformer inspects it:
a string, a `slog.Level`, a `*slog.Source` (function, file, line), or a
formatted timestamp. -/
inductive AttrValue where
  | str (s : String)
  | lvl (l : Int)
  | src (function : String) (file : String) (line : Int)
  | timeVal (t : String)
deriving DecidableEq

/-- Model of `slog.Attr`. -/
structure Attr where
  key : String
  value : AttrValue
deriving DecidableEq

/-- The zero `slog.Attr{}` returned to drop an attribute. -/
def emptyAttr : Attr := { key := "", value := .str "" }

/-- Source helper `ContainsKey`: linear scan of a key slice. -/
def ContainsKey : List String → String → Bool
  | [], _ => false
  | k :: t, key => if k == key then true else ContainsKey t key

/-- Go `filepath.Base`, used by the source `BaseName`. -/
def BaseName (file : String) : String :=
  if file = "" then "."
  else
    let rev := file.data.reverse.dropWhile fun c => c == '/'
    if rev = [] then "/"
    else String.mk ((rev.takeWhile fun c => c != '/').reverse)

/-- The last component of `strings.Split(fn, slash)` computed in the source
transformer's source branch (`pkgAndFn`). -/
def lastSlashComponent (fn : String) : String :=
  String.mk ((fn.data.reverse.takeWhile fun c => c != '/').reverse)

/-- Source `GenerateDefaultCustomReplaceAttr`: attributes whose key is in
`keysToRemove` become the zero attribute; the level attribute's value is
replaced by the upper-cased canonical name (single letter when
`UseSingleLetterLevel`); when `AddSource`, a source-descriptor value with a
non-empty file is reformatted as `file:line:function`.  (Go would panic on
a level-keyed attribute whose payload is not a `slog.Level`; the total
model keeps such an attribute unchanged.) -/
def GenerateDefaultCustomReplaceAttr (opts : CustomHandlerOptions)
    (keysToRemove : List String) (a : Attr) : Attr :=
  if ContainsKey keysToRemove a.key then emptyAttr
  else
    let a1 :=
      if a.key == slogLevelKey then
        match a.value with
        | .lvl l =>
          let levelName := GetLevelName l
          if opts.UseSingleLetterLevel then
            { a with value := .str (levelName.take 1).toUpper }
          else
            { a with value := .str levelName.toUpper }
        | _ => a
      else a
    if opts.AddSource ∧ a1.key == slogSourceKey then
      match a1.value with
      | .src fn file line =>
        if file ≠ "" then
          { a1 with value := .str (BaseName file ++ ":" ++ toString line ++ ":"
              ++ lastSlashComponent fn) }
        else a1
      | .str s => { a1 with value := .str s }
      | _ => a1
    else a1

/-- The transformer installed by `NewCustomHandler` when `replaceAttr` is
nil: `GenerateDefaultCustomReplaceAttr(*customOpts, slog.TimeKey,
slog.MessageKey)`. -/
def defaultCustomReplaceAttr (opts : CustomHandlerOptions) : Attr → Attr :=
  GenerateDefaultCustomReplaceAttr opts [slogTimeKey, slogMessageKey]

/-- A record as the inner text serializer sees it: formatted timestamp
(empty when the record's time is the zero time), level, message, and the
source descriptor recovered from the call site (when any). -/
structure SlogRecord where
  timeStr : String
  level : Int
  message : String
  source : Option (String × String × Int) := none
deriving DecidableEq

/-- A singleton attribute list guarded by a condition (the serializer emits
the time field only for a non-zero time, and the source field only when
`AddSource`). -/
def optAttr (b : Bool) (a : Attr) : List Attr :=
  if b then [a] else []

/-- The source attribute emitted when `AddSource` holds and the record
carries a source descriptor. -/
def sourceAttrList (b : Bool) (src : Option (String × String × Int)) : List Attr :=
  if b then
    match src with
    | some s => [{ key := slogSourceKey, value := .src s.1 s.2.1 s.2.2 }]
    | none => []
  else []

/-- The built-in attributes of `slog.TextHandler.handle`, in emission
order: time (for a non-zero time), level, source (when `AddSource`),
message. -/
def builtinAttrs (opts : CustomHandlerOptions) (r : SlogRecord) : List Attr :=
  optAttr (r.timeStr != "") { key := slogTimeKey, value := .timeVal r.timeStr }
    ++ [{ key := slogLevelKey, value := .lvl r.level }]
    ++ sourceAttrList opts.AddSource r.source
    ++ [{ key := slogMessageKey, value := .str r.message }]

/-- The keys of the fields the text serializer writes into the working
buffer: built-ins followed by user attributes, each passed through the
`ReplaceAttr` function, with zero attributes dropped. -/
def textHandlerKeys (opts : CustomHandlerOptions) (r : SlogRecord)
    (userAttrs : List Attr) (ra : Attr → Attr) : List String :=
  (((builtinAttrs opts r ++ userAttrs).map ra).filter fun a => a != emptyAttr).map
    fun a => a.key

lemma mem_optAttr {x a : Attr} {b : Bool} :
    x ∈ optAttr b a ↔ b = true ∧ x = a := by
  cases b <;> simp [optAttr]

lemma mem_sourceAttrList {x : Attr} {b : Bool} {o : Option (String × String × Int)} :
    x ∈ sourceAttrList b o ↔ b = true ∧ ∃ s, o = some s ∧
      x = { key := slogSourceKey, value := .src s.1 s.2.1 s.2.2 } := by
  cases b <;> cases o <;> simp [sourceAttrList]

lemma defaultRA_removes (opts : CustomHandlerOptions) (a : Attr)
    (h : a.key = slogTimeKey ∨ a.key = slogMessageKey) :
    defaultCustomReplaceAttr opts a = emptyAttr := by
  have hck : ContainsKey [slogTimeKey, slogMessageKey] a.key = true := by
    rcases h with h | h <;> simp [ContainsKey, h, slogTimeKey, slogMessageKey]
  simp [defaultCustomReplaceAttr, GenerateDefaultCustomReplaceAttr, hck]

lemma defaultRA_key_cases (opts : CustomHandlerOptions) (a : Attr) :
    defaultCustomReplaceAttr opts a = emptyAttr ∨
      ((defaultCustomReplaceAttr opts a).key = a.key ∧
        a.key ≠ slogTimeKey ∧ a.key ≠ slogMessageKey) := by
  by_cases hck : ContainsKey [slogTimeKey, slogMessageKey] a.key = true
  · left
    simp [defaultCustomReplaceAttr, GenerateDefaultCustomReplaceAttr, hck]
  · right
    have hne : a.key ≠ slogTimeKey ∧ a.key ≠ slogMessageKey := by
      constructor <;> intro hcontra <;> apply hck <;>
        simp [ContainsKey, hcontra, slogTimeKey, slogMessageKey]
    refine ⟨?_, hne⟩
    simp only [defaultCustomReplaceAttr, GenerateDefaultCustomReplaceAttr, hck,
      if_false, Bool.false_eq_true]
    by_cases hlv : a.key == slogLevelKey
    · cases hv : a.value <;>
        by_cases hsl : opts.UseSingleLetterLevel <;>
        by_cases hsrc : opts.AddSource <;>
        simp [hlv, hv, hsl, hsrc] <;>
        (try split) <;> (try split) <;> simp_all
    · by_cases hsrc : opts.AddSource
      · cases hv : a.value <;> simp [hlv, hv, hsrc] <;>
          (try split) <;> (try split) <;> simp_all
      · simp [hlv, hsrc]

lemma builtinAttrs_keys (opts : CustomHandlerOptions) (r : SlogRecord)
    (a : Attr) (ha : a ∈ builtinAttrs opts r) :
    a.key = slogTimeKey ∨ a.key = slogLevelKey ∨ a.key = slogSourceKey ∨
      a.key = slogMessageKey := by
  simp only [builtinAttrs, List.mem_append, List.mem_singleton, mem_optAttr,
    mem_sourceAttrList] at ha
  rcases ha with ((⟨-, rfl⟩ | rfl) | ⟨-, s, -, rfl⟩) | rfl <;> simp

/-! ## Claim C10 -/

/-- C10: the default transformer installed by `NewCustomHandler` with a nil
`replaceAttr` maps every attribute whose key is the standard time key or
message key to the zero attribute; consequently the serialized working
buffer (whose trailing residue is the bracketed block of every rendered
text line) contains no field keyed `time` or `msg` — so neither the
record's timestamp field nor its message field can appear there — and
every emitted field key is `level`, `source`, or the key of a
user-supplied attribute. -/
theorem C10_buffer_excludes_time_msg :
    (∀ (opts : CustomHandlerOptions) (a : Attr),
      (a.key = slogTimeKey ∨ a.key = slogMessageKey) →
      defaultCustomReplaceAttr opts a = emptyAttr) ∧
    (∀ (opts : CustomHandlerOptions) (r : SlogRecord) (userAttrs : List Attr),
      slogTimeKey ∉ textHandlerKeys opts r userAttrs (defaultCustomReplaceAttr opts) ∧
      slogMessageKey ∉ textHandlerKeys opts r userAttrs (defaultCustomReplaceAttr opts) ∧
      ∀ k ∈ textHandlerKeys opts r userAttrs (defaultCustomReplaceAttr opts),
        k = slogLevelKey ∨ k = slogSourceKey ∨ k ∈ userAttrs.map fun a => a.key) := by
  have hdecomp : ∀ (opts : CustomHandlerOptions) (r : SlogRecord)
      (userAttrs : List Attr) (k : String),
      k ∈ textHandlerKeys opts r userAttrs (defaultCustomReplaceAttr opts) →
      ∃ a, (a ∈ builtinAttrs opts r ∨ a ∈ userAttrs) ∧
        defaultCustomReplaceAttr opts a ≠ emptyAttr ∧
        (defaultCustomReplaceAttr opts a).key = k := by
    intro opts r userAttrs k hk
    simp only [textHandlerKeys, List.mem_map, List.mem_filter, List.mem_append,
      bne_iff_ne, ne_eq] at hk
    obtain ⟨b, ⟨⟨a, ha, rfl⟩, hne⟩, rfl⟩ := hk
    exact ⟨a, ha, hne, rfl⟩
  refine ⟨defaultRA_removes, ?_⟩
  intro opts r userAttrs
  have hkey : ∀ k ∈ textHandlerKeys opts r userAttrs (defaultCustomReplaceAttr opts),
      (k = slogLevelKey ∨ k = slogSourceKey ∨ k ∈ userAttrs.map fun a => a.key) ∧
        k ≠ slogTimeKey ∧ k ≠ slogMessageKey := by
    intro k hk
    obtain ⟨a, hmem, hne, hkeq⟩ := hdecomp opts r userAttrs k hk
    rcases defaultRA_key_cases opts a with hempty | ⟨hpres, hnotTime, hnotMsg⟩
    · exact absurd hempty hne
    · subst hkeq
      rw [hpres]
      refine ⟨?_, hnotTime, hnotMsg⟩
      rcases hmem with hb | hu
      · rcases builtinAttrs_keys opts r a hb with h | h | h | h
        · exact absurd h hnotTime
        · exact Or.inl h
        · exact Or.inr (Or.inl h)
        · exact absurd h hnotMsg
      · exact Or.inr (Or.inr (List.mem_map_of_mem (fun a => a.key) hu))
  refine ⟨?_, ?_, fun k hk => (hkey k hk).1⟩
  · intro hk
    exact (hkey slogTimeKey hk).2.1 rfl
  · intro hk
    exact (hkey slogMessageKey hk).2.2 rfl

/-- C10 witness: the theorem applied at concrete inputs — the default
transformer erases a concrete time-keyed attribute. -/
theorem C10_buffer_excludes_time_msg_witness :
    defaultCustomReplaceAttr { Level := "info", Enabled := true }
      { key := "time", value := .timeVal "10:10:09" } = emptyAttr := by
  exact C10_buffer_excludes_time_msg.1 { Level := "info", Enabled := true }
    { key := "time", value := .timeVal "10:10:09" } (Or.inl rfl)

/-! ## JSON model (json_handler.go, encoding/json)

`JSONHandler.GetKeyValue` unmarshals the buffer into a
`map[string]interface\x7b\x7d`, reads and optionally deletes the key, and
re-marshals.  The Go stdlib collaborators are embedded: a JSON parser
(`json.Unmarshal` into `interface` values), the canonical encoder
(`json.Marshal`, sorted keys, HTML-escaping) and the `fmt` default
representation (`%v`).  JSON numbers, which Go stores as `float64`, are
modelled as exact decimals `m × 10^e` (the rounding of a parsed decimal to
53 bits is not modelled); object entries keep parse order with
last-duplicate-wins, and every observation (lookup, sorted marshal, sorted
`%v`) is order-independent, matching the Go map. -/

/-- JSON value as `json.Unmarshal` produces into an `interface` value. -/
inductive JsonVal where
  | null
  | bool (b : Bool)
  | num (m : Int) (e : Int)
  | str (s : String)
  | arr (elems : List JsonVal)
  | obj (entries : List (String × JsonVal))

/-- JSON insignificant whitespace. -/
def isJsonWs (c : Char) : Bool :=
  c == ' ' || c == '\t' || c == '\n' || c == '\r'

/-- Skip insignificant whitespace. -/
def skipWs (l : List Char) : List Char :=
  l.dropWhile isJsonWs

/-- Value of one hexadecimal digit. -/
def hexDigitVal (c : Char) : Option Nat :=
  if '0' ≤ c ∧ c ≤ '9' then some (c.toNat - 48)
  else if 'a' ≤ c ∧ c ≤ 'f' then some (c.toNat - 87)
  else if 'A' ≤ c ∧ c ≤ 'F' then some (c.toNat - 55)
  else none

/-- Four hexadecimal digits of a \u escape. -/
def parseHex4 : List Char → Option (Nat × List Char)
  | a :: b :: c :: d :: rest =>
    match hexDigitVal a, hexDigitVal b, hexDigitVal c, hexDigitVal d with
    | some x1, some x2, some x3, some x4 =>
      some (((x1 * 16 + x2) * 16 + x3) * 16 + x4, rest)
    | _, _, _, _ => none
  | _ => none

/-- Body of a JSON string after the opening quote: unescapes the standard
escapes, pairs UTF-16 surrogates from \u escapes (unpaired surrogates
decode to U+FFFD as in Go), rejects raw control characters, and returns
the decoded characters with the input after the closing quote. -/
def parseStringBody : Nat → List Char → Option (List Char × List Char)
  | 0, _ => none
  | _ + 1, [] => none
  | fuel + 1, c :: cs =>
    if c == '"' then some ([], cs)
    else if c == '\\' then
      match cs with
      | [] => none
      | e :: cs2 =>
        if e == '"' then (parseStringBody fuel cs2).map fun p => ('"' :: p.1, p.2)
        else if e == '\\' then (parseStringBody fuel cs2).map fun p => ('\\' :: p.1, p.2)
        else if e == '/' then (parseStringBody fuel cs2).map fun p => ('/' :: p.1, p.2)
        else if e == 'b' then
          (parseStringBody fuel cs2).map fun p => (Char.ofNat 8 :: p.1, p.2)
        else if e == 'f' then
          (parseStringBody fuel cs2).map fun p => (Char.ofNat 12 :: p.1, p.2)
        else if e == 'n' then (parseStringBody fuel cs2).map fun p => ('\n' :: p.1, p.2)
        else if e == 'r' then (parseStringBody fuel cs2).map fun p => ('\r' :: p.1, p.2)
        else if e == 't' then (parseStringBody fuel cs2).map fun p => ('\t' :: p.1, p.2)
        else if e == 'u' then
          match parseHex4 cs2 with
          | none => none
          | some (n, cs3) =>
            if 0xD800 ≤ n ∧ n ≤ 0xDBFF then
              match cs3 with
              | '\\' :: 'u' :: cs4 =>
                match parseHex4 cs4 with
                | some (n2, cs5) =>
                  if 0xDC00 ≤ n2 ∧ n2 ≤ 0xDFFF then
                    (parseStringBody fuel cs5).map fun p =>
                      (Char.ofNat (0x10000 + (n - 0xD800) * 0x400 + (n2 - 0xDC00))
                        :: p.1, p.2)
                  else (parseStringBody fuel cs3).map fun p =>
                    (Char.ofNat 0xFFFD :: p.1, p.2)
                | none => (parseStringBody fuel cs3).map fun p =>
                    (Char.ofNat 0xFFFD :: p.1, p.2)
              | _ => (parseStringBody fuel cs3).map fun p =>
                  (Char.ofNat 0xFFFD :: p.1, p.2)
            else if 0xDC00 ≤ n ∧ n ≤ 0xDFFF then
              (parseStringBody fuel cs3).map fun p => (Char.ofNat 0xFFFD :: p.1, p.2)
            else
              (parseStringBody fuel cs3).map fun p => (Char.ofNat n :: p.1, p.2)
        else none
    else if c.toNat < 0x20 then none
    else (parseStringBody fuel cs).map fun p => (c :: p.1, p.2)

/-- Longest leading run of decimal digits. -/
def takeDigits : List Char → List Char × List Char
  | [] => ([], [])
  | c :: cs =>
    if '0' ≤ c ∧ c ≤ '9' then
      let p := takeDigits cs
      (c :: p.1, p.2)
    else ([], c :: cs)

/-- Numeric value of a digit run. -/
def digitsToNat (ds : List Char) : Nat :=
  ds.foldl (fun acc c => acc * 10 + (c.toNat - 48)) 0

/-- Strip trailing decimal zeros from the mantissa, normalizing the
`m × 10^e` representation. -/
def stripZeros : Nat → Int → Int → Int × Int
  | 0, m, e => (m, e)
  | f + 1, m, e => if m ≠ 0 ∧ m % 10 = 0 then stripZeros f (m / 10) (e + 1) else (m, e)

/-- Normalized decimal from mantissa digits and exponent. -/
def normNum (digitCount : Nat) (m e : Int) : Int × Int :=
  if m = 0 then (0, 0) else stripZeros digitCount m e

/-- Exponent part after the `e`/`E` marker of a JSON number. -/
def parseExpPart (t : List Char) : Option (Int × List Char) :=
  let p : Int × List Char :=
    match t with
    | '+' :: r => (1, r)
    | '-' :: r => (-1, r)
    | _ => (1, t)
  let d := takeDigits p.2
  if d.1 = [] then none else some (p.1 * (digitsToNat d.1 : Int), d.2)

/-- Fraction and exponent of a JSON number, given the sign and the integer
digits already consumed. -/
def parseNumberTail (neg : Bool) (intDs : List Char) (rest0 : List Char) :
    Option (JsonVal × List Char) :=
  let fracP : Option (List Char × List Char) :=
    match rest0 with
    | '.' :: t =>
      let p := takeDigits t
      if p.1 = [] then none else some (p.1, p.2)
    | _ => some ([], rest0)
  match fracP with
  | none => none
  | some (fracDs, rest1) =>
    let expP : Option (Int × List Char) :=
      match rest1 with
      | 'e' :: t => parseExpPart t
      | 'E' :: t => parseExpPart t
      | _ => some (0, rest1)
    match expP with
    | none => none
    | some (ex, rest2) =>
      let mant : Nat := digitsToNat (intDs ++ fracDs)
      let m : Int := if neg then -(mant : Int) else (mant : Int)
      let e : Int := ex - fracDs.length
      let p := normNum (intDs.length + fracDs.length) m e
      some (.num p.1 p.2, rest2)

/-- A JSON number per the grammar `-? (0 | [1-9][0-9]*) frac? exp?` (a
leading zero may not be followed by more integer digits, as in the Go
scanner). -/
def parseNumber (l : List Char) : Option (JsonVal × List Char) :=
  let sp : Bool × List Char :=
    match l with
    | '-' :: t => (true, t)
    | _ => (false, l)
  match sp.2 with
  | [] => none
  | c :: cs =>
    if c == '0' then parseNumberTail sp.1 ['0'] cs
    else if '1' ≤ c ∧ c ≤ '9' then
      let p := takeDigits (c :: cs)
      parseNumberTail sp.1 p.1 p.2
    else none

/-- Last-wins insertion used when parsing object members, matching the Go
map assignment for duplicate keys. -/
def objInsert : List (String × JsonVal) → String → JsonVal → List (String × JsonVal)
  | [], k, v => [(k, v)]
  | (k0, v0) :: t, k, v =>
    if k0 = k then (k0, v) :: t else (k0, v0) :: objInsert t k v

mutual

/-- A JSON value with leading whitespace, returning the remaining input.
The fuel bounds the recursion depth and never runs out when it starts at
twice the input length plus two. -/
def parseVal : Nat → List Char → Option (JsonVal × List Char)
  | 0, _ => none
  | fuel + 1, l =>
    match skipWs l with
    | [] => none
    | c :: cs =>
      if c == '"' then
        (parseStringBody (cs.length + 1) cs).map fun p => (.str (String.mk p.1), p.2)
      else if c == 't' then
        match cs with
        | 'r' :: 'u' :: 'e' :: rest => some (.bool true, rest)
        | _ => none
      else if c == 'f' then
        match cs with
        | 'a' :: 'l' :: 's' :: 'e' :: rest => some (.bool false, rest)
        | _ => none
      else if c == 'n' then
        match cs with
        | 'u' :: 'l' :: 'l' :: rest => some (.null, rest)
        | _ => none
      else if c == '\x7b' then
        match skipWs cs with
        | '\x7d' :: rest => some (.obj [], rest)
        | l2 => parseMembers fuel l2 []
      else if c == '[' then
        match skipWs cs with
        | ']' :: rest => some (.arr [], rest)
        | l2 => parseElems fuel l2 []
      else parseNumber (c :: cs)

/-- Members of a JSON object after the opening brace (first member not yet
consumed): `"key" : value` separated by commas. -/
def parseMembers : Nat → List Char → List (String × JsonVal) →
    Option (JsonVal × List Char)
  | 0, _, _ => none
  | fuel + 1, l, acc =>
    match l with
    | '"' :: cs =>
      match parseStringBody (cs.length + 1) cs with
      | none => none
      | some (keyChars, rest1) =>
        match skipWs rest1 with
        | ':' :: rest2 =>
          match parseVal fuel rest2 with
          | none => none
          | some (v, rest3) =>
            let acc2 := objInsert acc (String.mk keyChars) v
            match skipWs rest3 with
            | ',' :: rest4 => parseMembers fuel (skipWs rest4) acc2
            | '\x7d' :: rest4 => some (.obj acc2, rest4)
            | _ => none
        | _ => none
    | _ => none

/-- Elements of a JSON array after the opening bracket (first element not
yet consumed). -/
def parseElems : Nat → List Char → List JsonVal → Option (JsonVal × List Char)
  | 0, _, _ => none
  | fuel + 1, l, acc =>
    match parseVal fuel l with
    | none => none
    | some (v, rest1) =>
      match skipWs rest1 with
      | ',' :: rest2 => parseElems fuel rest2 (acc ++ [v])
      | ']' :: rest2 => some (.arr (acc ++ [v]), rest2)
      | _ => none

end

/-- Go `json.Unmarshal` of a whole document: one value followed only by
whitespace. -/
def parseJsonText (s : String) : Option JsonVal :=
  match parseVal (2 * s.length + 2) s.data with
  | some (v, rest) => if skipWs rest = [] then some v else none
  | none => none

/-- Decimal digits of a natural number, most significant first. -/
def natDigitsAux : Nat → Nat → List Char → List Char
  | 0, _, acc => acc
  | f + 1, n, acc =>
    if n = 0 then acc else natDigitsAux f (n / 10) (Char.ofNat (48 + n % 10) :: acc)

/-- Decimal digits of a natural number ("0" for zero). -/
def natDigits (n : Nat) : List Char :=
  if n = 0 then ['0'] else natDigitsAux (n + 1) n []

/-- Fixed decimal notation of `mAbs × 10^e`. -/
def fixedDecimal (mAbs : Nat) (e : Int) : List Char :=
  let ds := natDigits mAbs
  if e ≥ 0 then ds ++ List.replicate e.toNat '0'
  else
    let fl := (-e).toNat
    if ds.length > fl then
      ds.take (ds.length - fl) ++ '.' :: ds.drop (ds.length - fl)
    else
      '0' :: '.' :: (List.replicate (fl - ds.length) '0' ++ ds)

/-- Mantissa of scientific notation: first digit, then a point and the
remaining digits when there are any. -/
def sciDigits : List Char → List Char
  | [] => ['0']
  | d :: rest => if rest = [] then [d] else d :: '.' :: rest

/-- Exponent suffix of Go `strconv` scientific notation: sign and at least
two digits. -/
def expCharsTwo (x : Int) : List Char :=
  let ds := natDigits x.natAbs
  let ds := if ds.length < 2 then '0' :: ds else ds
  'e' :: (if x < 0 then '-' else '+') :: ds

/-- Exponent suffix as `encoding/json` renders it: positive exponents keep
the two-digit padding, single-digit negative exponents are unpadded (the
encoder's `e-09` → `e-9` cleanup). -/
def expCharsJson (x : Int) : List Char :=
  if x < 0 then 'e' :: '-' :: natDigits x.natAbs
  else
    let ds := natDigits x.natAbs
    'e' :: '+' :: (if ds.length < 2 then '0' :: ds else ds)

/-- Go `fmt` `%v` of a `float64` holding the decimal `m × 10^e`
(`strconv.FormatFloat` with format g and shortest precision): scientific
notation when the decimal exponent is below -4 or at least 21, fixed
notation otherwise. -/
def goFloatString (m e : Int) : String :=
  if m = 0 then "0"
  else
    let ds := natDigits m.natAbs
    let decExp : Int := (ds.length : Int) - 1 + e
    let body :=
      if decExp < -4 ∨ decExp ≥ 21 then sciDigits ds ++ expCharsTwo decExp
      else fixedDecimal m.natAbs e
    (if m < 0 then "-" else "") ++ String.mk body

/-- `encoding/json` number encoding of the decimal `m × 10^e`: format f
when 1e-6 ≤ |v| < 1e21, format e with exponent cleanup otherwise. -/
def jsonNumString (m e : Int) : String :=
  if m = 0 then "0"
  else
    let ds := natDigits m.natAbs
    let decExp : Int := (ds.length : Int) - 1 + e
    let body :=
      if decExp < -6 ∨ decExp ≥ 21 then sciDigits ds ++ expCharsJson decExp
      else fixedDecimal m.natAbs e
    (if m < 0 then "-" else "") ++ String.mk body

/-- One lowercase hexadecimal digit. -/
def lowerHexDigit (n : Nat) : Char :=
  Char.ofNat (if n < 10 then 48 + n else 87 + n)

/-- `encoding/json` string escaping (HTML escaping on, as in
`json.Marshal`): quote, backslash, `\n` `\r` `\t`, other control characters
as `\u00XX`, and `<` `>` `&` U+2028 U+2029 as `\uXXXX`. -/
def escapeJsonChar (c : Char) : List Char :=
  if c == '"' then ['\\', '"']
  else if c == '\\' then ['\\', '\\']
  else if c == '\n' then ['\\', 'n']
  else if c == '\r' then ['\\', 'r']
  else if c == '\t' then ['\\', 't']
  else if c.toNat < 0x20 then
    ['\\', 'u', '0', '0', lowerHexDigit (c.toNat / 16), lowerHexDigit (c.toNat % 16)]
  else if c == '<' then ['\\', 'u', '0', '0', '3', 'c']
  else if c == '>' then ['\\', 'u', '0', '0', '3', 'e']
  else if c == '&' then ['\\', 'u', '0', '0', '2', '6']
  else if c.toNat = 0x2028 then ['\\', 'u', '2', '0', '2', '8']
  else if c.toNat = 0x2029 then ['\\', 'u', '2', '0', '2', '9']
  else [c]

/-- A quoted, escaped JSON string literal. -/
def quoteJson (s : String) : String :=
  "\"" ++ String.mk (s.data.map escapeJsonChar).flatten ++ "\""

/-- Lexicographic strict order on character lists (code-point order, which
for UTF-8 equals the byte order Go sorts map keys by). -/
def charListLtB : List Char → List Char → Bool
  | [], [] => false
  | [], _ :: _ => true
  | _ :: _, [] => false
  | a :: as, b :: bs =>
    if a.toNat < b.toNat then true
    else if b.toNat < a.toNat then false
    else charListLtB as bs

/-- Strict string order used to sort object keys. -/
def stringLtB (s t : String) : Bool :=
  charListLtB s.data t.data

/-- Insertion into a key-sorted list of rendered entries. -/
def insertPairSorted (p : String × String) :
    List (String × String) → List (String × String)
  | [] => [p]
  | q :: t => if stringLtB p.1 q.1 then p :: q :: t else q :: insertPairSorted p t

/-- Sort rendered entries by key, as both `json.Marshal` and `fmt` print Go
maps (byte order of UTF-8 keys equals code-point order). -/
def sortPairsByKey (l : List (String × String)) : List (String × String) :=
  l.foldr insertPairSorted []

mutual

/-- Go `json.Marshal` of an `interface` value: canonical JSON, object
keys sorted. -/
def goMarshal : JsonVal → String
  | .null => "null"
  | .bool b => if b then "true" else "false"
  | .num m e => jsonNumString m e
  | .str s => quoteJson s
  | .arr xs => "[" ++ String.intercalate "," (goMarshalList xs) ++ "]"
  | .obj entries =>
    "\x7b" ++ String.intercalate ","
        ((sortPairsByKey (goMarshalEntries entries)).map
          fun p => quoteJson p.1 ++ ":" ++ p.2)
      ++ "\x7d"

/-- Marshalled array elements, in order. -/
def goMarshalList : List JsonVal → List String
  | [] => []
  | x :: t => goMarshal x :: goMarshalList t

/-- Object entries with marshalled values (sorted afterwards). -/
def goMarshalEntries : List (String × JsonVal) → List (String × String)
  | [] => []
  | (k, v) :: t => (k, goMarshal v) :: goMarshalEntries t

end

mutual

/-- Go `fmt.Sprintf` with `%v` of an `interface` value produced by
`json.Unmarshal`: strings unquoted, nil as `<nil>`, slices bracketed with
space-separated elements, maps as `map[k1:v1 k2:v2]` with sorted keys. -/
def goStringify : JsonVal → String
  | .null => "<nil>"
  | .bool b => if b then "true" else "false"
  | .num m e => goFloatString m e
  | .str s => s
  | .arr xs => "[" ++ String.intercalate " " (goStringifyList xs) ++ "]"
  | .obj entries =>
    "map[" ++ String.intercalate " "
        ((sortPairsByKey (goStringifyEntries entries)).map
          fun p => p.1 ++ ":" ++ p.2)
      ++ "]"

/-- Stringified array elements, in order. -/
def goStringifyList : List JsonVal → List String
  | [] => []
  | x :: t => goStringify x :: goStringifyList t

/-- Object entries with stringified values (sorted afterwards). -/
def goStringifyEntries : List (String × JsonVal) → List (String × String)
  | [] => []
  | (k, v) :: t => (k, goStringify v) :: goStringifyEntries t

end

/-- First (unique) binding of a key in an object. -/
def objLookup : List (String × JsonVal) → String → Option JsonVal
  | [], _ => none
  | (k, v) :: t, key => if k = key then some v else objLookup t key

/-- Go `delete(m, key)`. -/
def objErase (entries : List (String × JsonVal)) (key : String) :
    List (String × JsonVal) :=
  entries.filter fun p => p.1 != key

/-- The buffer parsed as a JSON object, the way
`json.Unmarshal([]byte(sb.String()), &m)` with `m : map[string]interface`
succeeds with a usable map: `none` covers both invalid JSON and valid
non-object documents (for a literal `null` document Go leaves `m` nil,
which is observationally the same: every lookup misses and the buffer is
not rewritten). -/
def parseTopObject (buf : String) : Option (List (String × JsonVal)) :=
  match parseJsonText buf with
  | some (.obj entries) => some entries
  | _ => none

/-- Source `JSONHandler.GetKeyValue`: parse the buffer as an object; on
failure return the empty string with the buffer untouched; otherwise look
the key up, and when present return its `%v` form, delete it when
`removeKey`, and re-marshal the map into the buffer.  The Go method
mutates the `strings.Builder` in place; the embedding returns the result
string together with the new buffer contents. -/
def jsonGetKeyValue (key buf : String) (removeKey : Bool) : String × String :=
  match parseTopObject buf with
  | none => ("", buf)
  | some m =>
    match objLookup m key with
    | none => ("", buf)
    | some v =>
      let m2 := if removeKey then objErase m key else m
      (goStringify v, goMarshal (.obj m2))

/-! ## Claim C6 -/

/-- C6: if the buffer does not hold a valid JSON object,
`JSONHandler.GetKeyValue` returns the empty string and leaves the buffer
unchanged, for either value of `removeKey`; if it holds an object
containing the key then, for either value of `removeKey`, the key's value
stringified via the default `%v` representation is returned, and the
buffer is re-serialized — without that key when `removeKey` is true, with
the object kept intact when it is false. -/
theorem C6_getKeyValue (buf key : String) (removeKey : Bool) :
    (parseTopObject buf = none → jsonGetKeyValue key buf removeKey = ("", buf)) ∧
    (∀ (m : List (String × JsonVal)) (v : JsonVal),
      parseTopObject buf = some m → objLookup m key = some v →
      jsonGetKeyValue key buf removeKey
        = (goStringify v,
           goMarshal (.obj (if removeKey then objErase m key else m)))) := by
  constructor
  · intro h
    simp [jsonGetKeyValue, h]
  · intro m v hm hv
    simp [jsonGetKeyValue, hm, hv]

/-- C6 witness: the theorem applied to a concrete two-entry object buffer
with `removeKey = true` and with `removeKey = false` (the value is
returned in both cases; the key is kept in the second), and to a concrete
invalid buffer. -/
theorem C6_getKeyValue_witness :
    jsonGetKeyValue "a" "\x7b\"a\":\"b\",\"n\":2\x7d" true
      = ("b", "\x7b\"n\":2\x7d") ∧
    jsonGetKeyValue "a" "\x7b\"a\":\"b\",\"n\":2\x7d" false
      = ("b", "\x7b\"a\":\"b\",\"n\":2\x7d") ∧
    jsonGetKeyValue "a" "\x7bnot json" true = ("", "\x7bnot json") := by
  refine ⟨?_, ?_, ?_⟩
  · have h := (C6_getKeyValue "\x7b\"a\":\"b\",\"n\":2\x7d" "a" true).2
      [("a", JsonVal.str "b"), ("n", JsonVal.num 2 0)] (JsonVal.str "b") rfl rfl
    exact h.trans rfl
  · have h := (C6_getKeyValue "\x7b\"a\":\"b\",\"n\":2\x7d" "a" false).2
      [("a", JsonVal.str "b"), ("n", JsonVal.num 2 0)] (JsonVal.str "b") rfl rfl
    exact h.trans rfl
  · exact (C6_getKeyValue "\x7bnot json" "a" true).1 rfl

end Multilog
